import Mathlib

/-!
# Verification of the VPR FPGA architecture-file reader (`vpr/read_arch.c`)

A shallow embedding of `read_arch.c`.  The raw tokenizer (`my_fgets` /
`my_strtok`, living in `util.c`, outside this repository's sources) is
abstracted as in the design document: the input is a list of logical lines,
each line a list of whitespace-separated token strings, comments stripped and
continuations already joined.  C floats are modelled as exact rationals (`ℚ`);
the fatal `exit(1)` calls are modelled with `Except`.  C global variables
(`isread`, `chan_x_dist`, …) are threaded explicitly as state.
-/

set_option autoImplicit false

namespace ReadArch

/-- `enum` of channel-distribution types from `pr.h`
    (`UNIFORM`, `GAUSSIAN`, `PULSE`, `DELTA`; `UNIFORM = 0` is the value a
    zero-initialised global `struct s_chan` carries). -/
inductive ChanType where
  | UNIFORM
  | GAUSSIAN
  | PULSE
  | DELTA
deriving DecidableEq, Repr

/-- `struct s_chan`: one channel-width distribution (floats as `ℚ`). -/
structure SChan where
  type : ChanType
  peak : ℚ
  width : ℚ
  xpeak : ℚ
  dc : ℚ
deriving DecidableEq, Repr

/-- A zero-initialised global `struct s_chan` (`UNIFORM` is enum value 0). -/
def initSChan : SChan := ⟨.UNIFORM, 0, 0, 0, 0⟩

/-- `enum e_Fc_type` from `pr.h`. -/
inductive FcType where
  | ABSOLUTE
  | FRACTIONAL
deriving DecidableEq, Repr

/-- `enum e_switch_block_type` from `pr.h`. -/
inductive SwitchBlockType where
  | SUBSET
  | WILTON
  | UNIVERSAL
deriving DecidableEq, Repr

/-- `enum e_route_type`. -/
inductive RouteType where
  | GLOBAL_ROUTE
  | DETAILED
deriving DecidableEq, Repr

/-- Pin directions (`DRIVER` / `RECEIVER`); a class whose `type` is still the
    `OPEN` flag is modelled with `Option.none`. -/
inductive PinType where
  | DRIVER
  | RECEIVER
deriving DecidableEq, Repr

/-- `struct s_class`: `type = none` is the `OPEN` not-set-yet flag; `pinlist`
    grows by appending, so `num_pins = pinlist.length`. -/
structure SClass where
  type : Option PinType
  pinlist : List ℕ
deriving DecidableEq, Repr

/-- `struct s_det_routing_arch` (the fields `read_arch` touches). -/
structure DetRoutingArch where
  Fc_output : ℚ
  Fc_input : ℚ
  Fc_pad : ℚ
  Fc_type : FcType
  switch_block_type : SwitchBlockType
deriving DecidableEq, Repr

/-- One diagnostic printed by the completeness loop of `check_arch`:
    `%s not set` / `%s set %d times` / `Clb has %d %s(s)`. -/
inductive CompletenessError where
  | notSet (i : ℕ)
  | setTimes (i : ℕ) (n : ℕ)
  | pinCount (i : ℕ) (n : ℕ)
deriving DecidableEq, Repr

/-- The fatal errors (`printf` + `exit(1)`) of `read_arch.c`, each carrying
    the data interpolated into its message. -/
inductive ArchError where
  | missingValue (inp_num : ℕ)
  | badIntValue (inp_num : ℕ) (v : ℤ)
  | badFloatValue (inp_num : ℕ) (v : ℚ)
  | extraChars
  | extraValue (inp_num : ℕ)
  | distKeywordUnknown (inp_num : ℕ) (kw : String)
  | expectedClassKeyword
  | expectedClassNumber
  | badClassNumber (v : ℤ)
  | mixedClass (c : ℤ)
  | noPinLocations
  | badPinLocation
  | missingFcType
  | badFcType (s : String)
  | missingSwitchBlockType
  | badSwitchBlockType (s : String)
  | classNotUsed (i : ℕ)
  | completeness (errs : List CompletenessError)
  | nonUniformChannels
  | fcAbsoluteRange
  | fcFractionalRange
deriving DecidableEq, Repr

/-- `true` exactly on the `.ok` constructor. -/
def exceptOk {ε α : Type} : Except ε α → Bool
  | .ok _ => true
  | .error _ => false

instance {ε α : Type} [DecidableEq ε] [DecidableEq α] :
    DecidableEq (Except ε α) := fun x y =>
  match x, y with
  | .ok a, .ok b =>
      if h : a = b then .isTrue (by rw [h]) else .isFalse (by simp [h])
  | .error e, .error f =>
      if h : e = f then .isTrue (by rw [h]) else .isFalse (by simp [h])
  | .ok _, .error _ => .isFalse (by simp)
  | .error _, .ok _ => .isFalse (by simp)

/-! ## The C library string conversions (`atoi`, `atof`)

`atoi`/`atof` are libc functions (external to the repository); they are
modelled here on their documented behaviour for decimal literals: skip
leading whitespace, an optional sign, then the longest numeric prefix
(`atof` additionally: optional fraction and decimal exponent); any remaining
characters are ignored, and no numeric prefix at all yields `0`. -/

/-- Skip leading blanks the way `isspace` does for the characters a token can
    still contain (tokens are produced by splitting on `" \t\n"`, so in
    practice none remain). -/
def skipSpaces : List Char → List Char
  | c :: rest => if c = ' ' ∨ c = '\t' ∨ c = '\n' then skipSpaces rest else c :: rest
  | [] => []

/-- Accumulate the longest leading run of decimal digits onto `acc`. -/
def atoiLoop : List Char → ℤ → ℤ
  | c :: rest, acc =>
      if c.isDigit then atoiLoop rest (10 * acc + (c.toNat - 48 : ℕ)) else acc
  | [], acc => acc

/-- Optional sign, then digits (`atoi` core). -/
def atoiChars (cs : List Char) : ℤ :=
  match skipSpaces cs with
  | '-' :: rest => - atoiLoop rest 0
  | '+' :: rest => atoiLoop rest 0
  | rest => atoiLoop rest 0

/-- C `atoi`: `atoi "abc" = 0`, `atoi "-3" = -3`. -/
def atoi (s : String) : ℤ := atoiChars s.data

/-- Split the longest leading digit run off a character list. -/
def takeDigits : List Char → List Char × List Char
  | c :: rest =>
      if c.isDigit then
        let (ds, r) := takeDigits rest
        (c :: ds, r)
      else ([], c :: rest)
  | [] => ([], [])

/-- Value of a digit string (most significant first). -/
def digitsToNat (ds : List Char) : ℕ :=
  ds.foldl (fun acc c => 10 * acc + (c.toNat - 48)) 0

/-- Optional sign: returns (negative?, rest). -/
def splitSign : List Char → Bool × List Char
  | '-' :: rest => (true, rest)
  | '+' :: rest => (false, rest)
  | cs => (false, cs)

/-- Optional `.` + fraction digits. -/
def parseFrac : List Char → List Char × List Char
  | '.' :: rest => takeDigits rest
  | cs => ([], cs)

/-- Optional `e`/`E` exponent part; value `0` when absent. -/
def parseExp : List Char → ℤ
  | 'e' :: rest =>
      let (neg, r) := splitSign rest
      let (ds, _) := takeDigits r
      if neg then -(digitsToNat ds : ℤ) else (digitsToNat ds : ℤ)
  | 'E' :: rest =>
      let (neg, r) := splitSign rest
      let (ds, _) := takeDigits r
      if neg then -(digitsToNat ds : ℤ) else (digitsToNat ds : ℤ)
  | _ => 0

/-- C `atof` on decimal literals, as an exact rational:
    `[sign] digits [. digits] [(e|E) [sign] digits]` has the value
    `± (ip + fp / 10^|fp|) · 10^ex`, written here as one integer quotient
    `± (ip · 10^|fp| + fp) · 10^(max ex 0) / 10^(|fp| + max (-ex) 0)`. -/
def atofQ (s : String) : ℚ :=
  let cs := skipSpaces s.data
  let (neg, cs1) := splitSign cs
  let (ip, cs2) := takeDigits cs1
  let (fp, cs3) := parseFrac cs2
  let ex := parseExp cs3
  let mag : ℚ :=
    Rat.divInt
      (((digitsToNat ip * 10 ^ fp.length + digitsToNat fp : ℕ) : ℤ) * 10 ^ ex.toNat)
      ((10 : ℤ) ^ (fp.length + (-ex).toNat))
  if neg then -mag else mag

/-- The bound `-1e-30` of the `xpeak`/`dc` parameters. -/
def negTiny : ℚ := Rat.divInt (-1) (10 ^ 30)

/-- The bound `1e10` of the `width` parameter. -/
def q1e10 : ℚ := Rat.divInt (10 ^ 10) 1

/-- The bound `1e20` of the `Fc_*` fields. -/
def q1e20 : ℚ := Rat.divInt (10 ^ 20) 1

/-! ## Scalar field readers -/

/-- `isread[inp_num]++` on the occurrence-counter array. -/
def bump (l : List ℕ) (i : ℕ) : List ℕ := l.set i (l.getD i 0 + 1)

/-- `get_int`: next token must exist and `atoi` to a value `> 0`; then no
    token may remain on the line (`extra characters` otherwise); on success
    `isread[inp_num]` is incremented and the value returned. -/
def get_int (toks : List String) (inp_num : ℕ) (isread : List ℕ) :
    Except ArchError (ℤ × List ℕ) :=
  match toks with
  | [] => .error (.missingValue inp_num)
  | t :: rest =>
      let val := atoi t
      if val ≤ 0 then .error (.badIntValue inp_num val)
      else
        match rest with
        | _ :: _ => .error .extraChars
        | [] => .ok (val, bump isread inp_num)

/-- `get_float`: next token must exist and `atof` to a value `v` with
    `low_lim < v ≤ upp_lim`.  The function returns immediately after the
    range check: it neither looks at the rest of the line nor touches
    `isread` (unlike `get_int`); the unread tokens are returned so callers
    can continue the line. -/
def get_float (toks : List String) (inp_num : ℕ) (low_lim upp_lim : ℚ) :
    Except ArchError (ℚ × List String) :=
  match toks with
  | [] => .error (.missingValue inp_num)
  | t :: rest =>
      let val := atofQ t
      if val ≤ low_lim ∨ upp_lim < val then .error (.badFloatValue inp_num val)
      else .ok (val, rest)

/-- `get_class`: expects the literal token `class:` and then a class-number
    token, which is read with `atoi` (so a non-numeric token yields `0`);
    only a negative value is fatal. -/
def get_class (toks : List String) : Except ArchError (ℤ × List String) :=
  match toks with
  | [] => .error .expectedClassKeyword
  | t :: rest =>
      if t = "class:" then
        match rest with
        | [] => .error .expectedClassNumber
        | t2 :: rest2 =>
            let c := atoi t2
            if c < 0 then .error (.badClassNumber c)
            else .ok (c, rest2)
      else .error .expectedClassKeyword

/-- `get_Fc_type`: token must be `absolute` or `fractional`, then end of
    line. -/
def get_Fc_type (toks : List String) : Except ArchError FcType :=
  match toks with
  | [] => .error .missingFcType
  | t :: rest =>
      match (if t = "absolute" then some FcType.ABSOLUTE
             else if t = "fractional" then some FcType.FRACTIONAL
             else none) with
      | none => .error (.badFcType t)
      | some ft =>
          match rest with
          | [] => .ok ft
          | _ :: _ => .error .extraChars

/-- `get_switch_block_type`: token must be `subset`, `wilton` or
    `universal`, then end of line. -/
def get_switch_block_type (toks : List String) : Except ArchError SwitchBlockType :=
  match toks with
  | [] => .error .missingSwitchBlockType
  | t :: rest =>
      match (if t = "subset" then some SwitchBlockType.SUBSET
             else if t = "wilton" then some SwitchBlockType.WILTON
             else if t = "universal" then some SwitchBlockType.UNIVERSAL
             else none) with
      | none => .error (.badSwitchBlockType t)
      | some sb =>
          match rest with
          | [] => .ok sb
          | _ :: _ => .error .extraChars

/-! ## Channel-distribution parser (`get_chan`) -/

/-- The tail of `get_chan`: first the
    `if (isread[inp_num] == 0) … distribution keyword unknown` check (note it
    reads the running occurrence counter, not a local flag), then the
    `extra value at end of line` check. -/
def chanTail (chan : SChan) (inp_num : ℕ) (kw : String) (isread : List ℕ)
    (rest : List String) : Except ArchError (SChan × List ℕ) :=
  if isread.getD inp_num 0 = 0 then .error (.distKeywordUnknown inp_num kw)
  else
    match rest with
    | [] => .ok (chan, isread)
    | _ :: _ => .error (.extraValue inp_num)

/-- `get_chan`: parses one `chan_width_x` / `chan_width_y` line into the
    channel struct `chan` (whose previous contents persist: untouched fields
    keep their old values, and the `gaussian`/`pulse` arm tests the *current*
    `chan->type`). -/
def get_chan (toks : List String) (chan : SChan) (inp_num : ℕ)
    (isread : List ℕ) : Except ArchError (SChan × List ℕ) :=
  match toks with
  | [] => .error (.missingValue inp_num)
  | t :: rest =>
      if t = "uniform" then
        let ir := bump isread inp_num
        match get_float rest inp_num 0 1 with
        | .error e => .error e
        | .ok (peak, r1) =>
            chanTail { chan with type := .UNIFORM, peak := peak, dc := 0 }
              inp_num t ir r1
      else if t = "delta" then
        let ir := bump isread inp_num
        match get_float rest inp_num (-100000) 100000 with
        | .error e => .error e
        | .ok (peak, r1) =>
            match get_float r1 inp_num negTiny 1 with
            | .error e => .error e
            | .ok (xpeak, r2) =>
                match get_float r2 inp_num negTiny 1 with
                | .error e => .error e
                | .ok (dc, r3) =>
                    chanTail
                      { chan with type := .DELTA, peak := peak,
                                  xpeak := xpeak, dc := dc }
                      inp_num t ir r3
      else
        let chan1 := if t = "gaussian" then { chan with type := .GAUSSIAN } else chan
        let chan2 := if t = "pulse" then { chan1 with type := .PULSE } else chan1
        if chan2.type = .GAUSSIAN ∨ chan2.type = .PULSE then
          let ir := bump isread inp_num
          match get_float rest inp_num (-1) 1 with
          | .error e => .error e
          | .ok (peak, r1) =>
              match get_float r1 inp_num 0 q1e10 with
              | .error e => .error e
              | .ok (width, r2) =>
                  match get_float r2 inp_num negTiny 1 with
                  | .error e => .error e
                  | .ok (xpeak, r3) =>
                      match get_float r3 inp_num negTiny 1 with
                      | .error e => .error e
                      | .ok (dc, r4) =>
                          chanTail
                            { chan2 with peak := peak, width := width,
                                         xpeak := xpeak, dc := dc }
                            inp_num t ir r4
        else chanTail chan2 inp_num t isread rest

/-! ## The loader state (the C globals `read_arch` writes) -/

/-- The global variables `read_arch.c` reads and writes, threaded as explicit
    state through the load pass. -/
structure ArchState where
  isread : List ℕ
  io_rat : ℤ
  chan_x_dist : SChan
  chan_y_dist : SChan
  chan_width_io : ℚ
  max_subblocks_per_block : ℤ
  subblock_lut_size : ℤ
  det : DetRoutingArch
  pinnum : ℕ
  class_inf : List SClass
  clb_pin_class : List ℕ
  pinloc : List (ℕ × ℕ)
deriving DecidableEq, Repr

/-- The `position[]` table of `get_pin`: index of a side keyword. -/
def pinPositionIndex (s : String) : Option ℕ :=
  if s = "top" then some 0
  else if s = "bottom" then some 1
  else if s = "left" then some 2
  else if s = "right" then some 3
  else none

/-- The do-while of `get_pin`: each remaining token must be a side keyword;
    `pinloc[i][pinnum] = 1` is recorded as membership of `(i, pinnum)`. -/
def setPinLocs : List String → ℕ → List (ℕ × ℕ) →
    Except ArchError (List (ℕ × ℕ))
  | [], _, acc => .ok acc
  | t :: rest, pinnum, acc =>
      match pinPositionIndex t with
      | some i => setPinLocs rest pinnum ((i, pinnum) :: acc)
      | none => .error .badPinLocation

/-- `get_pin`: loads one `inpin`/`outpin` line (class lookup and kind check,
    pin-list append, `clb_pin_class` entry, then at least one valid side
    keyword). -/
def get_pin (toks : List String) (pinnum : ℕ) (ptype : PinType)
    (st : ArchState) : Except ArchError ArchState :=
  match get_class toks with
  | .error e => .error e
  | .ok (cl, rest) =>
      let cn := cl.toNat
      let cls := st.class_inf.getD cn ⟨none, []⟩
      let typeOk : Bool :=
        match cls.type with
        | none => true
        | some t => t = ptype
      if typeOk then
        let cls' : SClass := ⟨some ptype, cls.pinlist ++ [pinnum]⟩
        let st' := { st with
          class_inf := st.class_inf.set cn cls',
          clb_pin_class := st.clb_pin_class.set pinnum cn }
        match rest with
        | [] => .error .noPinLocations
        | _ :: _ =>
            match setPinLocs rest pinnum st.pinloc with
            | .error e => .error e
            | .ok locs => .ok { st' with pinloc := locs }
      else .error (.mixedClass cl)

/-! ## The load-pass dispatcher (the while loop of `read_arch`) -/

/-- One iteration of the `read_arch` keyword dispatch.  An empty line and an
    unrecognised keyword are both silently skipped.  For `chan_width_io` and
    the three `Fc_*` fields the counter increment (`isread[i]++`) is done
    here by the dispatcher, after `get_float` returns, and any tokens
    `get_float` left unread are abandoned by the `continue`. -/
def readArchLine (line : List String) (st : ArchState) :
    Except ArchError ArchState :=
  match line with
  | [] => .ok st
  | kw :: rest =>
      if kw = "io_rat" then
        match get_int rest 0 st.isread with
        | .error e => .error e
        | .ok (v, ir) => .ok { st with io_rat := v, isread := ir }
      else if kw = "chan_width_x" then
        match get_chan rest st.chan_x_dist 1 st.isread with
        | .error e => .error e
        | .ok (c, ir) => .ok { st with chan_x_dist := c, isread := ir }
      else if kw = "chan_width_y" then
        match get_chan rest st.chan_y_dist 2 st.isread with
        | .error e => .error e
        | .ok (c, ir) => .ok { st with chan_y_dist := c, isread := ir }
      else if kw = "chan_width_io" then
        match get_float rest 3 0 5000 with
        | .error e => .error e
        | .ok (v, _) =>
            .ok { st with chan_width_io := v, isread := bump st.isread 3 }
      else if kw = "outpin" then
        match get_pin rest st.pinnum .DRIVER st with
        | .error e => .error e
        | .ok st' =>
            .ok { st' with pinnum := st'.pinnum + 1, isread := bump st'.isread 4 }
      else if kw = "inpin" then
        match get_pin rest st.pinnum .RECEIVER st with
        | .error e => .error e
        | .ok st' =>
            .ok { st' with pinnum := st'.pinnum + 1, isread := bump st'.isread 5 }
      else if kw = "subblocks_per_cluster" then
        match get_int rest 6 st.isread with
        | .error e => .error e
        | .ok (v, ir) =>
            .ok { st with max_subblocks_per_block := v, isread := ir }
      else if kw = "subblock_lut_size" then
        match get_int rest 7 st.isread with
        | .error e => .error e
        | .ok (v, ir) => .ok { st with subblock_lut_size := v, isread := ir }
      else if kw = "Fc_output" then
        match get_float rest 8 0 q1e20 with
        | .error e => .error e
        | .ok (v, _) =>
            .ok { st with det := { st.det with Fc_output := v },
                          isread := bump st.isread 8 }
      else if kw = "Fc_input" then
        match get_float rest 9 0 q1e20 with
        | .error e => .error e
        | .ok (v, _) =>
            .ok { st with det := { st.det with Fc_input := v },
                          isread := bump st.isread 9 }
      else if kw = "Fc_pad" then
        match get_float rest 10 0 q1e20 with
        | .error e => .error e
        | .ok (v, _) =>
            .ok { st with det := { st.det with Fc_pad := v },
                          isread := bump st.isread 10 }
      else if kw = "Fc_type" then
        match get_Fc_type rest with
        | .error e => .error e
        | .ok ft =>
            .ok { st with det := { st.det with Fc_type := ft },
                          isread := bump st.isread 11 }
      else if kw = "switch_block_type" then
        match get_switch_block_type rest with
        | .error e => .error e
        | .ok sb =>
            .ok { st with det := { st.det with switch_block_type := sb },
                          isread := bump st.isread 12 }
      else .ok st

/-- The whole load-pass scan over the line list. -/
def readArchScan : List (List String) → ArchState →
    Except ArchError ArchState
  | [], st => .ok st
  | line :: rest, st =>
      match readArchLine line st with
      | .error e => .error e
      | .ok st' => readArchScan rest st'

/-! ## The count pass (`countpass`) -/

/-- Is the first token of the line `inpin` or `outpin`?  (The condition of
    the count-pass branch.) -/
def pinKeywordLine (l : List String) : Prop :=
  l.head? = some "inpin" ∨ l.head? = some "outpin"

instance (l : List String) : Decidable (pinKeywordLine l) := by
  unfold pinKeywordLine; infer_instance

/-- The count-pass while loop: for each `inpin`/`outpin` line, read the class
    with `get_class`, grow `pins_per_class` (zero-filled) to cover it, and
    increment its count; all other tokens of the line are discarded. -/
def countpassScan : List (List String) → List ℕ → Except ArchError (List ℕ)
  | [], ppc => .ok ppc
  | line :: rest, ppc =>
      match line with
      | [] => countpassScan rest ppc
      | kw :: lrest =>
          if kw = "inpin" ∨ kw = "outpin" then
            match get_class lrest with
            | .error e => .error e
            | .ok (c, _) =>
                let cn := c.toNat
                let ppc1 :=
                  if ppc.length ≤ cn then
                    ppc ++ List.replicate (cn + 1 - ppc.length) 0
                  else ppc
                countpassScan rest (bump ppc1 cn)
          else countpassScan rest ppc

/-- The `Check for missing classes` loop: scan indices `s, s+1, …` (`n` of
    them) and abort at the first class with a zero pin count. -/
def checkClassesFrom (ppc : List ℕ) : ℕ → ℕ → Except ArchError Unit
  | 0, _ => .ok ()
  | n + 1, i =>
      if ppc.getD i 0 = 0 then .error (.classNotUsed i)
      else checkClassesFrom ppc n (i + 1)

/-- `countpass`: `num_class` starts at 1 (`Must be at least 1 class`) with a
    zero count, the scan tallies pins per class, and then every class index
    below `num_class` must have a nonzero count. -/
def countpass (lines : List (List String)) : Except ArchError (List ℕ) :=
  match countpassScan lines [0] with
  | .error e => .error e
  | .ok ppc =>
      match checkClassesFrom ppc ppc.length 0 with
      | .error e => .error e
      | .ok _ => .ok ppc

/-- The classes of the `inpin`/`outpin` lines, in file order (a pure view of
    what the count pass tallies; lines the scan would reject contribute
    nothing, which is irrelevant under a scan-succeeded hypothesis). -/
def classList (lines : List (List String)) : List ℕ :=
  lines.filterMap fun line =>
    match line with
    | [] => none
    | kw :: lrest =>
        if kw = "inpin" ∨ kw = "outpin" then
          match get_class lrest with
          | .ok (c, _) => some c.toNat
          | .error _ => none
        else none

/-! ## The validator (`check_arch`) -/

/-- `NUMINP`: the 13 keywords of `names[]`. -/
def NUMINP : ℕ := 13

/-- `NUM_DETAILED`: the trailing 5 keywords needed only for detailed
    routing. -/
def NUM_DETAILED : ℕ := 5

/-- How many leading entries of `names[]` are mandatory for the given
    routing mode. -/
def num_to_check (route_type : RouteType) : ℕ :=
  if route_type = .DETAILED then NUMINP else NUMINP - NUM_DETAILED

/-- The diagnostics the completeness loop of `check_arch` prints for field
    `i`: for the non-pin fields `isread = 0` and `isread > 1` each produce
    one message; for `outpin` (4) and `inpin` (5) only `isread < 1` does. -/
def fieldErrors (isread : List ℕ) (i : ℕ) : List CompletenessError :=
  if i ≠ 4 ∧ i ≠ 5 then
    (if isread.getD i 0 = 0 then [.notSet i] else []) ++
    (if 1 < isread.getD i 0 then [.setTimes i (isread.getD i 0)] else [])
  else
    if isread.getD i 0 < 1 then [.pinCount i (isread.getD i 0)] else []

/-- All diagnostics of the completeness loop, over every mandatory field, in
    loop order; `check_arch` exits after the loop iff this is nonempty. -/
def completenessErrors (isread : List ℕ) (route_type : RouteType) :
    List CompletenessError :=
  ((List.range (num_to_check route_type)).map (fieldErrors isread)).flatten

/-- `check_arch`: the batched completeness check, then (for detailed routing
    only) the uniform-equal-channels check and the Fc-range check of the
    selected Fc mode, each aborting on first failure. -/
def check_arch (isread : List ℕ) (route_type : RouteType)
    (chan_x_dist chan_y_dist : SChan) (chan_width_io : ℚ)
    (det : DetRoutingArch) : Except ArchError Unit :=
  match completenessErrors isread route_type with
  | e :: es => .error (.completeness (e :: es))
  | [] =>
      if route_type = .DETAILED then
        if chan_x_dist.type ≠ .UNIFORM ∨ chan_y_dist.type ≠ .UNIFORM ∨
            chan_x_dist.peak ≠ chan_y_dist.peak ∨
            chan_x_dist.peak ≠ chan_width_io then
          .error .nonUniformChannels
        else if det.Fc_type = .ABSOLUTE then
          if det.Fc_output < 1 ∨ det.Fc_input < 1 ∨ det.Fc_pad < 1 then
            .error .fcAbsoluteRange
          else .ok ()
        else
          if 1 < det.Fc_output ∨ 1 < det.Fc_input ∨ 1 < det.Fc_pad then
            .error .fcFractionalRange
          else .ok ()
      else .ok ()

/-! ## The whole loader (`read_arch`) -/

/-- The state the load pass starts from: `isread` zeroed, the zero-initialised
    channel globals, and the class table `countpass` allocated (`type` the
    `OPEN` flag, empty pin lists, `clb_pin_class` sized to the total pin
    count).  `det0` is the caller's `det_routing_arch` contents. -/
def buildState (ppc : List ℕ) (det0 : DetRoutingArch) : ArchState :=
  { isread := List.replicate 13 0
    io_rat := 0
    chan_x_dist := initSChan
    chan_y_dist := initSChan
    chan_width_io := 0
    max_subblocks_per_block := 0
    subblock_lut_size := 0
    det := det0
    pinnum := 0
    class_inf := List.replicate ppc.length ⟨none, []⟩
    clb_pin_class := List.replicate (ppc.foldr (· + ·) 0) 0
    pinloc := [] }

/-- `read_arch`: the count pass first (its `exit(1)` aborts everything), then
    the rewound load-pass scan, then `check_arch`. -/
def read_arch (lines : List (List String)) (route_type : RouteType)
    (det0 : DetRoutingArch) : Except ArchError ArchState :=
  match countpass lines with
  | .error e => .error e
  | .ok ppc =>
      match readArchScan lines (buildState ppc det0) with
      | .error e => .error e
      | .ok st =>
          match check_arch st.isread route_type st.chan_x_dist st.chan_y_dist
              st.chan_width_io st.det with
          | .error e => .error e
          | .ok _ => .ok st

/-! ## Grid construction (`fill_arch`) -/

/-- First carve loop of `fill_arch` (`for (i=1;i<=nx;i++)`): for `n` columns
    starting at `i`, cell `(i,0)` gets the slice starting at the running
    `index`, cell `(i,ny+1)` the next one, each `io_rat` slots wide.  Returns
    the assignments in carve order and the final running index. -/
def carveRows : ℕ → ℕ → ℕ → ℕ → ℕ → List ((ℕ × ℕ) × ℕ) × ℕ
  | 0, _, _, _, idx => ([], idx)
  | n + 1, i, ny, io_rat, idx =>
      let (rest, fin) := carveRows n (i + 1) ny io_rat (idx + 2 * io_rat)
      (((i, 0), idx) :: ((i, ny + 1), idx + io_rat) :: rest, fin)

/-- Second carve loop of `fill_arch` (`for (i=1;i<=ny;i++)`): cells `(0,i)`
    and `(nx+1,i)` per row. -/
def carveCols : ℕ → ℕ → ℕ → ℕ → ℕ → List ((ℕ × ℕ) × ℕ) × ℕ
  | 0, _, _, _, idx => ([], idx)
  | n + 1, i, nx, io_rat, idx =>
      let (rest, fin) := carveCols n (i + 1) nx io_rat (idx + 2 * io_rat)
      (((0, i), idx) :: ((nx + 1, i), idx + io_rat) :: rest, fin)

/-- The `io_blocks` assignment of `fill_arch`: each perimeter cell paired
    with the start offset of its `io_rat`-slot slice in the shared pool
    (`index = my_malloc(2*io_rat*(nx+ny))`), listed in carve order: the
    row-0 / row-`ny+1` loop first, then the column-0 / column-`nx+1` loop. -/
def fill_arch_io (nx ny io_rat : ℕ) : List ((ℕ × ℕ) × ℕ) :=
  let p1 := carveRows nx 1 ny io_rat 0
  let p2 := carveCols ny 1 nx io_rat p1.2
  p1.1 ++ p2.1

/-! ## Automatic grid sizing (`init_arch`) -/

/-- `⌈√m⌉` on naturals: the least `n` with `m ≤ n * n`. -/
def natCeilSqrt (m : ℕ) : ℕ :=
  if Nat.sqrt m * Nat.sqrt m = m then Nat.sqrt m else Nat.sqrt m + 1

/-- `(int) ceil q` for the nonnegative rationals arising below. -/
def ceilToNat (q : ℚ) : ℕ := ⌈q⌉.toNat

/-- The automatic-sizing arm of `init_arch` (`user_sized == FALSE`), floats
    modelled exactly: `ny = ceil(sqrt(num_clbs / aspect_ratio))` (here via
    `ceil (sqrt q) = natCeilSqrt ⌈q⌉` for `q ≥ 0`, proved as
    `init_arch_auto_ny_least` below), `io_lim`, `ny = max ny io_lim`,
    `nx = ceil(ny * aspect_ratio)`.  `pads = num_p_inputs + num_p_outputs`. -/
def init_arch_auto (num_clbs : ℕ) (aspect_ratio : ℚ) (pads io_rat : ℕ) :
    ℕ × ℕ :=
  let ny0 := natCeilSqrt (ceilToNat ((num_clbs : ℚ) / aspect_ratio))
  let io_lim := ceilToNat ((pads : ℚ) / (2 * io_rat * (1 + aspect_ratio)))
  let ny := max ny0 io_lim
  let nx := ceilToNat ((ny : ℚ) * aspect_ratio)
  (nx, ny)

/-! ## Spec-side predicates (phrased from the specification's words, for
comparison against the code-side definitions above) -/

/-- The completeness rule as the spec states it for field `i`: non-pin
    fields must occur exactly once, the pin fields (`outpin` = 4,
    `inpin` = 5) at least once. -/
def violatesCompleteness (isread : List ℕ) (i : ℕ) : Prop :=
  if i = 4 ∨ i = 5 then isread.getD i 0 < 1
  else isread.getD i 0 = 0 ∨ 1 < isread.getD i 0

instance (isread : List ℕ) (i : ℕ) : Decidable (violatesCompleteness isread i) := by
  unfold violatesCompleteness; infer_instance

/-- The pad-slot carve order asserted by the spec: the right/left perimeter
    (columns `0` and `nx+1`) is carved before the top/bottom perimeter
    (rows `0` and `ny+1`), so every side cell's offset precedes every
    row cell's offset in the shared pool. -/
def sidesCarvedFirst (nx ny io_rat : ℕ) : Prop :=
  ∀ x y k x' y' k',
    ((x, y), k) ∈ fill_arch_io nx ny io_rat →
    ((x', y'), k') ∈ fill_arch_io nx ny io_rat →
    (x = 0 ∨ x = nx + 1) → (y' = 0 ∨ y' = ny + 1) → k < k'

/-- A small concrete loader state (the class table of a one-class,
    one-pin architecture), used for concrete line-level runs. -/
def sampleState : ArchState :=
  buildState [1] ⟨0, 0, 0, .ABSOLUTE, .SUBSET⟩

/-! # Theorems about the claims -/

/-- **C9.**  On an `inpin`/`outpin` line whose class-number token is present,
    the class index is read with `atoi`, so a non-numeric token (for example
    `abc`) evaluates to `0` and the pin is silently accepted into class `0`;
    only a token with a negative integer value is fatal. -/
theorem get_class_atoi_nonneg :
    atoi "abc" = 0
    ∧ (∀ (t : String) (rest : List String), 0 ≤ atoi t →
        get_class ("class:" :: t :: rest) = .ok (atoi t, rest))
    ∧ (∀ (t : String) (rest : List String), atoi t < 0 →
        get_class ("class:" :: t :: rest) = .error (.badClassNumber (atoi t)))
    ∧ get_class ["class:", "abc", "top"] = .ok (0, ["top"]) := by
  refine ⟨by decide, ?_, ?_, by decide⟩
  · intro t rest h
    simp [get_class, not_lt.mp (by simpa using h)]
  · intro t rest h
    simp [get_class, h]

/-- Witness for `get_class_atoi_nonneg`: the general success case applied to
    the concrete token `5`. -/
theorem get_class_atoi_nonneg_witness :
    get_class ["class:", "5", "left"] = .ok (atoi "5", ["left"]) :=
  get_class_atoi_nonneg.2.1 "5" ["left"] (by decide)

/-- **C7 (counterexample).**  A `delta` line with peak exactly `-1e5` is
    rejected: `get_float` faults on `val <= low_lim`, so the claimed closed
    lower bound does not hold. -/
theorem delta_peak_low_bound_rejected :
    atofQ "-1e5" = -100000
    ∧ get_chan ["delta", "-1e5", "0.5", "0.5"] initSChan 1 (List.replicate 13 0)
        = .error (.badFloatValue 1 (-100000)) := by
  constructor
  · decide
  · decide

/-- **C7 (amended).**  The `delta` peak parameter is accepted exactly when it
    lies in the half-open interval `(-1e5, 1e5]`: `get_float` with the delta
    bounds succeeds for `-1e5 < v ≤ 1e5` and faults (naming the field and the
    value) for `v ≤ -1e5` or `v > 1e5`; the `delta` arm of `get_chan` passes
    exactly these bounds for its first parameter. -/
theorem delta_peak_half_open :
    (∀ (t : String) (rest : List String) (inp_num : ℕ),
        -100000 < atofQ t → atofQ t ≤ 100000 →
        get_float (t :: rest) inp_num (-100000) 100000 = .ok (atofQ t, rest))
    ∧ (∀ (t : String) (rest : List String) (inp_num : ℕ),
        atofQ t ≤ -100000 ∨ 100000 < atofQ t →
        get_float (t :: rest) inp_num (-100000) 100000 =
          .error (.badFloatValue inp_num (atofQ t)))
    ∧ (∀ (t : String) (rest : List String) (chan : SChan) (isread : List ℕ)
        (inp_num : ℕ), atofQ t ≤ -100000 →
        get_chan ("delta" :: t :: rest) chan inp_num isread =
          .error (.badFloatValue inp_num (atofQ t))) := by
  refine ⟨?_, ?_, ?_⟩
  · intro t rest inp_num h1 h2
    simp [get_float, not_lt.mpr h2, not_le.mpr h1]
  · intro t rest inp_num h
    rcases h with h | h
    · simp [get_float, h]
    · simp [get_float, h]
  · intro t rest chan isread inp_num h
    simp [get_chan, get_float, h]

/-- Witness for `delta_peak_half_open`: peak `-1e5 + something`, here the
    token `0.5`, is accepted by the delta-peak reader. -/
theorem delta_peak_half_open_witness :
    get_float ["0.5"] 1 (-100000) 100000 = .ok (atofQ "0.5", []) :=
  delta_peak_half_open.1 "0.5" [] 1 (by decide) (by decide)

/-- **C1 (counterexample).**  A `chan_width_io` line carrying an extra token
    after its float value is *not* fatal: the whole line loads successfully,
    the value is stored, the dispatcher bumps `isread[3]`, and the trailing
    token is silently discarded. -/
theorem chan_width_io_trailing_token_accepted :
    readArchLine ["chan_width_io", "1.0", "junk"] sampleState =
      .ok { sampleState with chan_width_io := 1,
                             isread := bump sampleState.isread 3 } := by
  decide

/-- **C1 (amended).**  The integer reader rejects any trailing token with the
    fatal `extra characters` error and increments the occurrence counter on
    success; the float reader does neither — it returns right after the range
    check, leaving trailing tokens unread, and for the float fields
    (`chan_width_io`, `Fc_output`, `Fc_input`, `Fc_pad`) the dispatcher
    itself bumps the counter and abandons the unread tokens, so an extra
    token on such a line is silently ignored. -/
theorem scalar_reader_trailing_tokens :
    (∀ (t u : String) (rest : List String) (inp_num : ℕ) (isread : List ℕ),
        0 < atoi t →
        get_int (t :: u :: rest) inp_num isread = .error .extraChars)
    ∧ (∀ (t : String) (inp_num : ℕ) (isread : List ℕ), 0 < atoi t →
        get_int [t] inp_num isread = .ok (atoi t, bump isread inp_num))
    ∧ (∀ (t : String) (rest : List String) (inp_num : ℕ) (lo hi : ℚ),
        lo < atofQ t → atofQ t ≤ hi →
        get_float (t :: rest) inp_num lo hi = .ok (atofQ t, rest))
    ∧ (∀ (st : ArchState) (tok : String) (extra : List String),
        0 < atofQ tok → atofQ tok ≤ 5000 →
        readArchLine ("chan_width_io" :: tok :: extra) st =
          .ok { st with chan_width_io := atofQ tok,
                        isread := bump st.isread 3 }) := by
  refine ⟨?_, ?_, ?_, ?_⟩
  · intro t u rest inp_num isread h
    simp [get_int, not_le.mpr h]
  · intro t inp_num isread h
    simp [get_int, not_le.mpr h]
  · intro t rest inp_num lo hi h1 h2
    simp [get_float, not_lt.mpr h2, not_le.mpr h1]
  · intro st tok extra h1 h2
    simp [readArchLine, get_float, not_lt.mpr h2, not_le.mpr h1]

/-- Witness for `scalar_reader_trailing_tokens`: a concrete `chan_width_io`
    line with an extra token, loaded through the dispatcher. -/
theorem scalar_reader_trailing_tokens_witness :
    readArchLine ["chan_width_io", "2", "junk"] sampleState =
      .ok { sampleState with chan_width_io := atofQ "2",
                             isread := bump sampleState.isread 3 } :=
  scalar_reader_trailing_tokens.2.2.2 sampleState "2" ["junk"]
    (by decide) (by decide)

/-- **C3 (counterexample).**  After a successful `chan_width_x uniform 0.5`
    line, a second `chan_width_x` line with the unknown distribution keyword
    `foo` is *not* fatal: the scan accepts it and leaves the state exactly as
    it was after the first line, because the `distribution keyword unknown`
    test only fires while `isread[1]` is still `0`. -/
theorem chan_unknown_keyword_after_success_accepted :
    readArchScan [["chan_width_x", "uniform", "0.5"], ["chan_width_x", "foo"]]
        sampleState =
      readArchScan [["chan_width_x", "uniform", "0.5"]] sampleState
    ∧ exceptOk (readArchScan
        [["chan_width_x", "uniform", "0.5"], ["chan_width_x", "foo"]]
        sampleState) = true := by
  constructor
  · decide
  · decide

/-- **C3 (amended).**  An unknown distribution keyword on a channel line is
    fatal with `distribution keyword unknown` exactly while the axis's
    occurrence counter is still `0` *and* the channel struct's residual type
    is not `gaussian`/`pulse` — the state every axis is in from program start
    until its first successful line.  After a successful line for the same
    axis, the unknown-keyword error can no longer fire; what happens instead
    depends on the residual type: with residual `uniform` or `delta` a lone
    unknown keyword is accepted silently with no state change, while with
    residual `gaussian` or `pulse` the unknown keyword is treated as a
    gaussian/pulse line — the counter is bumped and parameter parsing begins,
    so a lone unknown keyword dies with the `missing value` error (not the
    unknown-keyword one). -/
theorem chan_unknown_keyword_depends_on_isread :
    (∀ (kw : String) (rest : List String) (chan : SChan) (isread : List ℕ)
        (inp_num : ℕ),
        kw ≠ "uniform" → kw ≠ "delta" → kw ≠ "gaussian" → kw ≠ "pulse" →
        isread.getD inp_num 0 = 0 →
        chan.type ≠ .GAUSSIAN → chan.type ≠ .PULSE →
        get_chan (kw :: rest) chan inp_num isread =
          .error (.distKeywordUnknown inp_num kw))
    ∧ (∀ (kw : String) (chan : SChan) (isread : List ℕ) (inp_num : ℕ),
        kw ≠ "uniform" → kw ≠ "delta" → kw ≠ "gaussian" → kw ≠ "pulse" →
        isread.getD inp_num 0 ≠ 0 →
        (chan.type = .UNIFORM ∨ chan.type = .DELTA) →
        get_chan [kw] chan inp_num isread = .ok (chan, isread))
    ∧ (∀ (kw : String) (chan : SChan) (isread : List ℕ) (inp_num : ℕ),
        kw ≠ "uniform" → kw ≠ "delta" → kw ≠ "gaussian" → kw ≠ "pulse" →
        (chan.type = .GAUSSIAN ∨ chan.type = .PULSE) →
        get_chan [kw] chan inp_num isread =
          .error (.missingValue inp_num)) := by
  refine ⟨?_, ?_, ?_⟩
  · intro kw rest chan isread inp_num h1 h2 h3 h4 h5 h6 h7
    simp only [List.getD, List.get?_eq_getElem?] at h5
    simp [get_chan, chanTail, List.getD, List.get?_eq_getElem?, h1, h2, h3, h4, h5, h6, h7]
  · intro kw chan isread inp_num h1 h2 h3 h4 h5 htype
    have h6 : chan.type ≠ .GAUSSIAN := by rcases htype with h | h <;> simp [h]
    have h7 : chan.type ≠ .PULSE := by rcases htype with h | h <;> simp [h]
    simp only [List.getD, List.get?_eq_getElem?] at h5
    simp [get_chan, chanTail, List.getD, List.get?_eq_getElem?, h1, h2, h3, h4, h5, h6, h7]
  · intro kw chan isread inp_num h1 h2 h3 h4 htype
    rcases htype with h | h <;>
      simp [get_chan, get_float, h1, h2, h3, h4, h]

/-- Witness for `chan_unknown_keyword_depends_on_isread`: the unknown keyword
    `bogus` on a first `chan_width_x` line is fatal. -/
theorem chan_unknown_keyword_depends_on_isread_witness :
    get_chan ["bogus"] initSChan 1 (List.replicate 13 0) =
      .error (.distKeywordUnknown 1 "bogus") :=
  chan_unknown_keyword_depends_on_isread.1 "bogus" [] initSChan
    (List.replicate 13 0) 1 (by decide) (by decide) (by decide) (by decide)
    (by decide) (by decide) (by decide)

/-- `fieldErrors` is empty exactly when field `i` satisfies the completeness
    rule. -/
theorem fieldErrors_eq_nil (isread : List ℕ) (i : ℕ) :
    fieldErrors isread i = [] ↔ ¬ violatesCompleteness isread i := by
  unfold fieldErrors violatesCompleteness
  generalize isread.getD i 0 = v
  by_cases h : i = 4 ∨ i = 5
  · simp only [if_pos h, if_neg (by tauto : ¬(i ≠ 4 ∧ i ≠ 5))]
    split_ifs with hc <;> simp [hc]
  · simp only [if_neg h, if_pos (by tauto : i ≠ 4 ∧ i ≠ 5)]
    split_ifs with h1 h2 <;> simp_all <;> omega

/-- The batched diagnostics list is empty exactly when every mandatory field
    is complete. -/
theorem completenessErrors_eq_nil (isread : List ℕ) (rt : RouteType) :
    completenessErrors isread rt = [] ↔
      ∀ i < num_to_check rt, ¬ violatesCompleteness isread i := by
  unfold completenessErrors
  rw [List.flatten_eq_nil_iff]
  constructor
  · intro h i hi hv
    exact (fieldErrors_eq_nil isread i).mp
      (h _ (List.mem_map_of_mem _ (List.mem_range.mpr hi))) hv
  · intro h l hl
    obtain ⟨i, hi, rfl⟩ := List.mem_map.mp hl
    exact (fieldErrors_eq_nil isread i).mpr (h i (List.mem_range.mp hi))

/-- Every diagnostic of a mandatory field lands in the batched list. -/
theorem fieldErrors_mem_completenessErrors (isread : List ℕ) (rt : RouteType)
    {i : ℕ} (hi : i < num_to_check rt) :
    ∀ e ∈ fieldErrors isread i, e ∈ completenessErrors isread rt := by
  intro e he
  unfold completenessErrors
  rw [List.mem_flatten]
  exact ⟨fieldErrors isread i,
    List.mem_map_of_mem _ (List.mem_range.mpr hi), he⟩

/-- **C4.**  The completeness phase of `check_arch` checks the first
    `num_to_check` keywords (all 13 for detailed routing, the first 8
    otherwise): it fails — with the whole batched diagnostics list in one
    report — exactly when some mandatory non-pin field has count `0` or
    `> 1`, or a pin field (`outpin`, `inpin`) has count `< 1`; and every
    violating field contributes its diagnostics to that one report. -/
theorem check_arch_completeness_batch (isread : List ℕ) (rt : RouteType)
    (cx cy : SChan) (cwio : ℚ) (det : DetRoutingArch) :
    (check_arch isread rt cx cy cwio det =
        .error (.completeness (completenessErrors isread rt)) ↔
      ∃ i < num_to_check rt, violatesCompleteness isread i)
    ∧ (∀ i < num_to_check rt, violatesCompleteness isread i →
        fieldErrors isread i ≠ [] ∧
        ∀ e ∈ fieldErrors isread i, e ∈ completenessErrors isread rt) := by
  constructor
  · constructor
    · intro h
      by_contra hno
      push_neg at hno
      have hce : completenessErrors isread rt = [] :=
        (completenessErrors_eq_nil isread rt).mpr hno
      rw [hce] at h
      simp only [check_arch, hce] at h
      split_ifs at h <;> simp_all
    · intro ⟨i, hi, hv⟩
      have hce : completenessErrors isread rt ≠ [] := by
        intro hnil
        exact (completenessErrors_eq_nil isread rt).mp hnil i hi hv
      rcases hmatch : completenessErrors isread rt with _ | ⟨e, es⟩
      · exact absurd hmatch hce
      · simp only [check_arch, hmatch]
  · intro i hi hv
    refine ⟨fun hnil => (fieldErrors_eq_nil isread i).mp hnil hv, ?_⟩
    exact fieldErrors_mem_completenessErrors isread rt hi

/-- Witness for `check_arch_completeness_batch`: an all-zero counter array
    (nothing was read) makes `check_arch` fail with the batched report. -/
theorem check_arch_completeness_batch_witness :
    check_arch (List.replicate 13 0) .GLOBAL_ROUTE initSChan initSChan 0
        ⟨0, 0, 0, .ABSOLUTE, .SUBSET⟩ =
      .error (.completeness
        (completenessErrors (List.replicate 13 0) .GLOBAL_ROUTE)) :=
  (check_arch_completeness_batch (List.replicate 13 0) .GLOBAL_ROUTE initSChan
      initSChan 0 ⟨0, 0, 0, .ABSOLUTE, .SUBSET⟩).1.mpr
    ⟨0, by decide, by decide⟩

/-- **C5.**  With detailed routing and the completeness phase passing, the
    cross-field validation fails exactly when the two channel distributions
    are not both `Uniform` with equal peaks equal to `chan_width_io`, or
    the Fc mode is `Absolute` with some Fc value `< 1`, or the Fc mode is
    `Fractional` with some Fc value `> 1`. -/
theorem check_arch_detailed_cross (isread : List ℕ) (cx cy : SChan)
    (cwio : ℚ) (det : DetRoutingArch)
    (hok : completenessErrors isread .DETAILED = []) :
    check_arch isread .DETAILED cx cy cwio det ≠ .ok () ↔
      (cx.type ≠ .UNIFORM ∨ cy.type ≠ .UNIFORM ∨ cx.peak ≠ cy.peak ∨
          cx.peak ≠ cwio)
      ∨ (det.Fc_type = .ABSOLUTE ∧
          (det.Fc_output < 1 ∨ det.Fc_input < 1 ∨ det.Fc_pad < 1))
      ∨ (det.Fc_type = .FRACTIONAL ∧
          (1 < det.Fc_output ∨ 1 < det.Fc_input ∨ 1 < det.Fc_pad)) := by
  obtain ⟨fo, fi, fp, ft, sb⟩ := det
  cases ft
  · simp only [check_arch, hok, if_true, if_false]
    split_ifs with h1 h2
    · exact iff_of_true (by simp) (Or.inl h1)
    · exact iff_of_true (by simp) (Or.inr (Or.inl ⟨trivial, h2⟩))
    · refine iff_of_false (by simp) ?_
      rintro (h | ⟨-, h⟩ | ⟨⟨⟩, -⟩)
      exacts [h1 h, h2 h]
  · simp only [check_arch, hok, if_true, if_false]
    split_ifs with h1 h2 h3 h4
    · exact iff_of_true (by simp) (Or.inl h1)
    · exact h2.elim
    · exact h2.elim
    · exact iff_of_true (by simp) (Or.inr (Or.inr ⟨trivial, h4⟩))
    · refine iff_of_false (by simp) ?_
      rintro (h | ⟨⟨⟩, -⟩ | ⟨-, h⟩)
      exacts [h1 h, h4 h]

/-- Witness for `check_arch_detailed_cross`: a fractional-mode architecture
    with `Fc_output = 2` fails cross-field validation. -/
theorem check_arch_detailed_cross_witness :
    check_arch (List.replicate 13 1) .DETAILED
        ⟨.UNIFORM, 1, 0, 0, 0⟩ ⟨.UNIFORM, 1, 0, 0, 0⟩ 1
        ⟨2, 1, 1, .FRACTIONAL, .SUBSET⟩ ≠ .ok () :=
  (check_arch_detailed_cross (List.replicate 13 1)
      ⟨.UNIFORM, 1, 0, 0, 0⟩ ⟨.UNIFORM, 1, 0, 0, 0⟩ 1
      ⟨2, 1, 1, .FRACTIONAL, .SUBSET⟩ (by decide)).mpr
    (Or.inr (Or.inr ⟨rfl, Or.inl (by decide)⟩))

/-! ## Count-pass lemmas -/

/-- Reading a zero-padded extension at any index gives the original
    default-read. -/
theorem getD_replicate_zero (k i : ℕ) :
    (List.replicate k (0 : ℕ)).getD i 0 = 0 := by
  induction k generalizing i with
  | zero => simp
  | succ k ih => cases i <;> simp [List.replicate_succ, ih]

/-- Zero-padding on the right never changes a default-read. -/
theorem getD_append_replicate (l : List ℕ) (k i : ℕ) :
    (l ++ List.replicate k 0).getD i 0 = l.getD i 0 := by
  induction l generalizing i with
  | nil => simp [getD_replicate_zero]
  | cons a l ih =>
    cases i with
    | zero => simp
    | succ n => simpa only [List.cons_append, List.getD_cons_succ] using ih n

/-- `bump` adds one at index `j` (when `j` is in range) and leaves every
    other index unchanged. -/
theorem bump_getD (l : List ℕ) (j i : ℕ) (hj : j < l.length) :
    (bump l j).getD i 0 = l.getD i 0 + if i = j then 1 else 0 := by
  unfold bump
  induction l generalizing i j with
  | nil => simp at hj
  | cons a l ih =>
    cases j with
    | zero => cases i <;> simp [List.set]
    | succ j =>
      cases i with
      | zero => simp [List.set]
      | succ i =>
        simpa [List.set] using ih j i (by simpa using hj)

/-- The count-pass scan only grows the `pins_per_class` table. -/
theorem countpassScan_ok_length_le :
    ∀ (lines : List (List String)) (p0 p : List ℕ),
      countpassScan lines p0 = .ok p → p0.length ≤ p.length := by
  intro lines
  induction lines with
  | nil =>
    intro p0 p h
    simp only [countpassScan] at h
    cases h
    exact le_rfl
  | cons line rest ih =>
    intro p0 p h
    match line with
    | [] => exact ih p0 p h
    | kw :: lrest =>
      simp only [countpassScan] at h
      split_ifs at h with hpin
      · cases hgc : get_class lrest with
        | error e => rw [hgc] at h; cases h
        | ok cr =>
          rw [hgc] at h
          have := ih _ _ h
          have hlen : p0.length ≤ (bump (if p0.length ≤ cr.1.toNat then
              p0 ++ List.replicate (cr.1.toNat + 1 - p0.length) 0 else p0)
              cr.1.toNat).length := by
            unfold bump
            rw [List.length_set]
            split_ifs <;> simp
          exact le_trans hlen this
      · exact ih p0 p h

/-- Invariant of the count-pass scan: on success, the final per-class count
    at any index is the starting count plus the number of pin lines of that
    class. -/
theorem countpassScan_ok_getD :
    ∀ (lines : List (List String)) (p0 p : List ℕ),
      countpassScan lines p0 = .ok p →
      ∀ i, p.getD i 0 = p0.getD i 0 + (classList lines).count i := by
  intro lines
  induction lines with
  | nil =>
    intro p0 p h i
    simp only [countpassScan] at h
    cases h
    simp [classList]
  | cons line rest ih =>
    intro p0 p h i
    match line with
    | [] =>
      have : classList ([] :: rest) = classList rest := by
        simp [classList, List.filterMap_cons]
      rw [this]
      exact ih p0 p h i
    | kw :: lrest =>
      simp only [countpassScan] at h
      split_ifs at h with hpin
      · cases hgc : get_class lrest with
        | error e => rw [hgc] at h; cases h
        | ok cr =>
          rw [hgc] at h
          obtain ⟨c, r⟩ := cr
          have hcl : classList ((kw :: lrest) :: rest) =
              c.toNat :: classList rest := by
            simp [classList, List.filterMap_cons, hpin, hgc]
          set cn := c.toNat with hcn
          set ppc1 := if p0.length ≤ cn then
              p0 ++ List.replicate (cn + 1 - p0.length) 0 else p0 with hppc1
          have hcnlt : cn < ppc1.length := by
            rw [hppc1]
            split_ifs with hle
            · simp only [List.length_append, List.length_replicate]
              omega
            · omega
          have hgetD : ∀ k, ppc1.getD k 0 = p0.getD k 0 := by
            intro k
            rw [hppc1]
            split_ifs
            · exact getD_append_replicate p0 _ k
            · rfl
          have hstep := ih _ _ h i
          rw [bump_getD ppc1 cn i hcnlt, hgetD i] at hstep
          rw [hcl, hstep, List.count_cons]
          by_cases hic : i = cn
          · simp [hic]
            try omega
          · simp [hic]
            try omega
      · have : classList ((kw :: lrest) :: rest) = classList rest := by
          simp [classList, List.filterMap_cons, hpin]
        rw [this]
        exact ih p0 p h i

/-- Every class mentioned on a pin line ends up below the final table
    length. -/
theorem countpassScan_ok_classes_lt :
    ∀ (lines : List (List String)) (p0 p : List ℕ),
      countpassScan lines p0 = .ok p →
      ∀ c ∈ classList lines, c < p.length := by
  intro lines
  induction lines with
  | nil =>
    intro p0 p h c hc
    simp [classList] at hc
  | cons line rest ih =>
    intro p0 p h c hc
    match line with
    | [] =>
      have : classList ([] :: rest) = classList rest := by
        simp [classList, List.filterMap_cons]
      rw [this] at hc
      exact ih p0 p h c hc
    | kw :: lrest =>
      simp only [countpassScan] at h
      split_ifs at h with hpin
      · cases hgc : get_class lrest with
        | error e => rw [hgc] at h; cases h
        | ok cr =>
          rw [hgc] at h
          obtain ⟨cl, r⟩ := cr
          have hcl : classList ((kw :: lrest) :: rest) =
              cl.toNat :: classList rest := by
            simp [classList, List.filterMap_cons, hpin, hgc]
          rw [hcl] at hc
          rcases List.mem_cons.mp hc with rfl | hc
          · set cn := cl.toNat with hcn
            set ppc1 := if p0.length ≤ cn then
                p0 ++ List.replicate (cn + 1 - p0.length) 0 else p0 with hppc1
            have hcnlt : cn < (bump ppc1 cn).length := by
              unfold bump
              rw [List.length_set, hppc1]
              split_ifs with hle
              · simp only [List.length_append, List.length_replicate]
                omega
              · omega
            exact lt_of_lt_of_le hcnlt (countpassScan_ok_length_le rest _ p h)
          · exact ih _ p h c hc
      · have : classList ((kw :: lrest) :: rest) = classList rest := by
          simp [classList, List.filterMap_cons, hpin]
        rw [this] at hc
        exact ih p0 p h c hc

/-- If the missing-class loop finishes, every scanned index had a nonzero
    count. -/
theorem checkClassesFrom_ok (ppc : List ℕ) :
    ∀ (n s : ℕ), checkClassesFrom ppc n s = .ok () →
      ∀ k < n, ppc.getD (s + k) 0 ≠ 0 := by
  intro n
  induction n with
  | zero => intro s h k hk; omega
  | succ n ih =>
    intro s h k hk
    simp only [checkClassesFrom] at h
    split_ifs at h with hz
    cases k with
    | zero => simpa using hz
    | succ k =>
      have hrec := ih (s + 1) h k (by omega)
      rwa [show s + 1 + k = s + (k + 1) from by omega] at hrec

/-- The missing-class loop aborts at the first zero-count index, reporting
    that index. -/
theorem checkClassesFrom_firstZero (ppc : List ℕ) :
    ∀ (n s i : ℕ), i < n →
      (∀ j < i, ppc.getD (s + j) 0 ≠ 0) →
      ppc.getD (s + i) 0 = 0 →
      checkClassesFrom ppc n s = .error (.classNotUsed (s + i)) := by
  intro n
  induction n with
  | zero => intro s i hi; omega
  | succ n ih =>
    intro s i hi hprev hz
    simp only [checkClassesFrom]
    cases i with
    | zero =>
      rw [if_pos (by simpa using hz)]
      rfl
    | succ i =>
      rw [if_neg (by simpa using hprev 0 (by omega))]
      have hprev' : ∀ j < i, ppc.getD (s + 1 + j) 0 ≠ 0 := by
        intro j hj
        have := hprev (j + 1) (by omega)
        rwa [show s + (j + 1) = s + 1 + j from by omega] at this
      have hz' : ppc.getD (s + 1 + i) 0 = 0 := by
        rwa [show s + (i + 1) = s + 1 + i from by omega] at hz
      have hrec := ih (s + 1) i (by omega) hprev' hz'
      rwa [show s + 1 + i = s + (i + 1) from by omega] at hrec

/-- The initial one-slot table reads zero everywhere. -/
theorem getD_singleton_zero : ∀ i : ℕ, [(0 : ℕ)].getD i 0 = 0 := by
  intro i
  cases i <;> rfl

/-- **C6.**  After the count pass, every class index below `num_class` (one
    more than the highest index seen, when pins exist) must have a nonzero
    pin count: on success all indices below the table length are used and
    every used index is below it — the used class indices are exactly the
    contiguous range `0 .. num_class-1`; a zero-count index makes `countpass`
    abort with `classNotUsed` naming the first such index. -/
theorem countpass_classes_consecutive (lines : List (List String))
    (ppc : List ℕ) :
    (countpass lines = .ok ppc →
      (∀ i < ppc.length, 0 < (classList lines).count i) ∧
      (∀ c ∈ classList lines, c < ppc.length))
    ∧ (∀ i, countpassScan lines [0] = .ok ppc → i < ppc.length →
        (classList lines).count i = 0 →
        (∀ j < i, (classList lines).count j ≠ 0) →
        countpass lines = .error (.classNotUsed i)) := by
  constructor
  · intro h
    cases hscan : countpassScan lines [0] with
    | error e =>
      simp only [countpass, hscan] at h
      exact Except.noConfusion h
    | ok p' =>
      simp only [countpass, hscan] at h
      cases hchk : checkClassesFrom p' p'.length 0 with
      | error e =>
        rw [hchk] at h
        exact Except.noConfusion h
      | ok u =>
        rw [hchk] at h
        obtain rfl : ppc = p' := by simpa using h.symm
        cases u
        constructor
        · intro i hi
          have hne := checkClassesFrom_ok ppc ppc.length 0 hchk i hi
          rw [Nat.zero_add] at hne
          have := countpassScan_ok_getD lines [0] ppc hscan i
          rw [getD_singleton_zero, Nat.zero_add] at this
          omega
        · exact countpassScan_ok_classes_lt lines [0] ppc hscan
  · intro i hscan hi hcnt hprev
    have hgd : ∀ k, ppc.getD k 0 = (classList lines).count k := by
      intro k
      have := countpassScan_ok_getD lines [0] ppc hscan k
      rwa [getD_singleton_zero, Nat.zero_add] at this
    have herr := checkClassesFrom_firstZero ppc ppc.length 0 i hi
      (fun j hj => by rw [Nat.zero_add, hgd j]; exact hprev j hj)
      (by rw [Nat.zero_add, hgd i]; exact hcnt)
    rw [Nat.zero_add] at herr
    simp only [countpass, hscan, herr]

/-- Witness for `countpass_classes_consecutive`: a single `inpin class: 0`
    line passes the count check, and class `0` is indeed used. -/
theorem countpass_classes_consecutive_witness :
    0 < (classList [["inpin", "class:", "0", "top"]]).count 0 :=
  ((countpass_classes_consecutive [["inpin", "class:", "0", "top"]] [1]).1
    (by decide)).1 0 (by decide)

/-- A scan over lines none of which starts with `inpin`/`outpin` leaves the
    table untouched. -/
theorem countpassScan_no_pins :
    ∀ (lines : List (List String)) (p0 : List ℕ),
      (∀ l ∈ lines, ¬ pinKeywordLine l) →
      countpassScan lines p0 = .ok p0 := by
  intro lines
  induction lines with
  | nil => intro p0 _; rfl
  | cons line rest ih =>
    intro p0 h
    match line with
    | [] => exact ih p0 (fun l hl => h l (List.mem_cons_of_mem _ hl))
    | kw :: lrest =>
      have hk : ¬(kw = "inpin" ∨ kw = "outpin") := by
        have := h (kw :: lrest) (List.mem_cons_self _ _)
        simpa [pinKeywordLine] using this
      simp only [countpassScan, if_neg hk]
      exact ih p0 (fun l hl => h l (List.mem_cons_of_mem _ hl))

/-- **C10.**  On an input with no `inpin`/`outpin` line at all, the count
    pass itself aborts with the `classNotUsed 0` (classes-not-consecutive)
    error — `num_class` starts at 1 with a zero count — so `read_arch`
    returns that error and the completeness validator never runs. -/
theorem read_arch_no_pins_aborts (lines : List (List String))
    (rt : RouteType) (det0 : DetRoutingArch)
    (h : ∀ l ∈ lines, ¬ pinKeywordLine l) :
    read_arch lines rt det0 = .error (.classNotUsed 0) := by
  have hscan := countpassScan_no_pins lines [0] h
  have hcp : countpass lines = .error (.classNotUsed 0) := by
    simp only [countpass, hscan]
    rfl
  simp only [read_arch, hcp]

/-- Witness for `read_arch_no_pins_aborts`: a file with only an `io_rat`
    line dies in the count pass. -/
theorem read_arch_no_pins_aborts_witness :
    read_arch [["io_rat", "3"]] .GLOBAL_ROUTE ⟨0, 0, 0, .ABSOLUTE, .SUBSET⟩ =
      .error (.classNotUsed 0) :=
  read_arch_no_pins_aborts [["io_rat", "3"]] .GLOBAL_ROUTE
    ⟨0, 0, 0, .ABSOLUTE, .SUBSET⟩ (by decide)

/-! ## Grid-construction lemmas -/

/-- Closed form of the first carve loop: column `i + k` gets the slices at
    `idx + 2*r*k` (row 0) and `idx + 2*r*k + r` (row `ny+1`), and the
    running index advances by `2*r` per column. -/
theorem carveRows_eq (ny r : ℕ) :
    ∀ (n i idx : ℕ),
      carveRows n i ny r idx =
        (((List.range n).map fun k =>
            [((i + k, 0), idx + 2 * r * k),
             ((i + k, ny + 1), idx + 2 * r * k + r)]).flatten,
         idx + 2 * r * n) := by
  intro n
  induction n with
  | zero => intro i idx; simp [carveRows]
  | succ n ih =>
    intro i idx
    simp only [carveRows, ih (i + 1) (idx + 2 * r)]
    rw [List.range_succ_eq_map]
    simp only [List.map_cons, List.map_map, List.flatten_cons, Prod.mk.injEq]
    constructor
    · simp only [Nat.add_zero, Nat.mul_zero, Function.comp]
      refine List.cons_eq_cons.mpr ⟨rfl, List.cons_eq_cons.mpr ⟨rfl, ?_⟩⟩
      congr 1
      refine List.map_congr_left ?_
      intro k _
      simp only [Function.comp_apply]
      have h1 : i + 1 + k = i + (k + 1) := by omega
      have h2 : idx + 2 * r + 2 * r * k = idx + 2 * r * (k + 1) := by ring
      rw [h1, h2]
    · ring

/-- Closed form of the second carve loop: row `i + k` gets the slices at
    `idx + 2*r*k` (column 0) and `idx + 2*r*k + r` (column `nx+1`). -/
theorem carveCols_eq (nx r : ℕ) :
    ∀ (n i idx : ℕ),
      carveCols n i nx r idx =
        (((List.range n).map fun k =>
            [((0, i + k), idx + 2 * r * k),
             ((nx + 1, i + k), idx + 2 * r * k + r)]).flatten,
         idx + 2 * r * n) := by
  intro n
  induction n with
  | zero => intro i idx; simp [carveCols]
  | succ n ih =>
    intro i idx
    simp only [carveCols, ih (i + 1) (idx + 2 * r)]
    rw [List.range_succ_eq_map]
    simp only [List.map_cons, List.map_map, List.flatten_cons, Prod.mk.injEq]
    constructor
    · simp only [Nat.add_zero, Nat.mul_zero, Function.comp]
      refine List.cons_eq_cons.mpr ⟨rfl, List.cons_eq_cons.mpr ⟨rfl, ?_⟩⟩
      congr 1
      refine List.map_congr_left ?_
      intro k _
      simp only [Function.comp_apply]
      have h1 : i + 1 + k = i + (k + 1) := by omega
      have h2 : idx + 2 * r + 2 * r * k = idx + 2 * r * (k + 1) := by ring
      rw [h1, h2]
    · ring

/-- A flatten of `m` two-element blocks has length `2*m`. -/
theorem length_flatten_pairs {α : Type} (g : ℕ → List α) (m : ℕ)
    (hg : ∀ k, (g k).length = 2) :
    (((List.range m).map g).flatten).length = 2 * m := by
  rw [List.length_flatten, List.map_map]
  have hmap : (List.range m).map (List.length ∘ g) =
      (List.range m).map (fun _ => 2) :=
    List.map_congr_left fun k _ => hg k
  rw [hmap]
  simp [List.map_const', List.sum_replicate, smul_eq_mul, Nat.mul_comm]

/-- **C2 (counterexample).**  The spec's carve order is refuted already on a
    1×1 grid with `io_rat = 1`: the left-column cell `(0,1)` receives offset
    `2` while the bottom-row cell `(1,0)` receives offset `0`, so the
    right/left perimeter is *not* carved first. -/
theorem fill_arch_not_sides_first :
    ¬ sidesCarvedFirst 1 1 1 := by
  intro h
  have h20 : (2 : ℕ) < 0 :=
    h 0 1 2 1 0 0 (by decide) (by decide) (Or.inl rfl) (Or.inl rfl)
  omega

/-- **C2 (amended).**  `fill_arch` carves one shared pool of
    `2*io_rat*(nx+ny)` pad slots into `io_rat`-sized consecutive slices, one
    per perimeter IO cell, in the fixed order: bottom/top rows first by
    increasing column (bottom row before top row within a column), then
    left/right columns by increasing row (left before right within a row);
    every slice fits inside the pool, which is consumed exactly. -/
theorem fill_arch_carve_order (nx ny r : ℕ) :
    fill_arch_io nx ny r =
      (((List.range nx).map fun k =>
          [((k + 1, 0), 2 * r * k), ((k + 1, ny + 1), 2 * r * k + r)]).flatten
        ++ ((List.range ny).map fun k =>
          [((0, k + 1), 2 * r * nx + 2 * r * k),
           ((nx + 1, k + 1), 2 * r * nx + 2 * r * k + r)]).flatten)
    ∧ (fill_arch_io nx ny r).length = 2 * (nx + ny)
    ∧ (carveCols ny 1 nx r (carveRows nx 1 ny r 0).2).2 = 2 * r * (nx + ny)
    ∧ (∀ cell off, (cell, off) ∈ fill_arch_io nx ny r →
        off + r ≤ 2 * r * (nx + ny)) := by
  have heq : fill_arch_io nx ny r =
      (((List.range nx).map fun k =>
          [((k + 1, 0), 2 * r * k), ((k + 1, ny + 1), 2 * r * k + r)]).flatten
        ++ ((List.range ny).map fun k =>
          [((0, k + 1), 2 * r * nx + 2 * r * k),
           ((nx + 1, k + 1), 2 * r * nx + 2 * r * k + r)]).flatten) := by
    unfold fill_arch_io
    simp only [carveRows_eq ny r, carveCols_eq nx r]
    simp only [Nat.zero_add]
    congr 1
    · congr 1
      refine List.map_congr_left ?_
      intro k _
      rw [show 1 + k = k + 1 from by omega]
    · congr 1
      refine List.map_congr_left ?_
      intro k _
      rw [show 1 + k = k + 1 from by omega]
  refine ⟨heq, ?_, ?_, ?_⟩
  · rw [heq, List.length_append,
      length_flatten_pairs
        (fun k => [((k + 1, 0), 2 * r * k), ((k + 1, ny + 1), 2 * r * k + r)])
        nx (fun k => rfl),
      length_flatten_pairs
        (fun k => [((0, k + 1), 2 * r * nx + 2 * r * k),
          ((nx + 1, k + 1), 2 * r * nx + 2 * r * k + r)])
        ny (fun k => rfl)]
    ring
  · rw [carveRows_eq, carveCols_eq]
    ring
  · intro cell off hmem
    rw [heq] at hmem
    simp only [List.mem_append, List.mem_flatten, List.mem_map] at hmem
    rcases hmem with ⟨l, ⟨k, hk, rfl⟩, hin⟩ | ⟨l, ⟨k, hk, rfl⟩, hin⟩ <;>
      rw [List.mem_range] at hk <;>
      simp only [List.mem_cons, List.not_mem_nil, or_false] at hin
    · have hk1 : 2 * r * (k + 1) ≤ 2 * r * nx :=
        Nat.mul_le_mul_left (2 * r) (by omega)
      have hx : 2 * r * (k + 1) = 2 * r * k + 2 * r := by ring
      have hy : 2 * r * (nx + ny) = 2 * r * nx + 2 * r * ny := by ring
      rcases hin with hin | hin <;>
        · have hoff := congrArg Prod.snd hin
          simp only at hoff
          omega
    · have hk1 : 2 * r * (k + 1) ≤ 2 * r * ny :=
        Nat.mul_le_mul_left (2 * r) (by omega)
      have hx : 2 * r * (k + 1) = 2 * r * k + 2 * r := by ring
      have hy : 2 * r * (nx + ny) = 2 * r * nx + 2 * r * ny := by ring
      rcases hin with hin | hin <;>
        · have hoff := congrArg Prod.snd hin
          simp only at hoff
          omega

/-- Witness for `fill_arch_carve_order`: on the 1×1, `io_rat = 1` grid the
    bottom-row cell's slice `[0,1)` lies inside the 4-slot pool. -/
theorem fill_arch_carve_order_witness : 0 + 1 ≤ 2 * 1 * (1 + 1) :=
  (fill_arch_carve_order 1 1 1).2.2.2 (1, 0) 0 (by decide)

/-! ## Automatic-sizing lemmas -/

/-- `natCeilSqrt m` is the least natural whose square reaches `m` — i.e. it
    is exactly `⌈√m⌉`. -/
theorem natCeilSqrt_spec (m : ℕ) :
    m ≤ natCeilSqrt m * natCeilSqrt m ∧
    ∀ k : ℕ, m ≤ k * k → natCeilSqrt m ≤ k := by
  unfold natCeilSqrt
  split_ifs with h
  · refine ⟨le_of_eq h.symm, ?_⟩
    intro k hk
    calc Nat.sqrt m ≤ Nat.sqrt (k * k) := Nat.sqrt_le_sqrt hk
    _ = k := Nat.sqrt_eq k
  · constructor
    · have hlt := Nat.lt_succ_sqrt m
      rw [Nat.succ_eq_add_one] at hlt
      omega
    · intro k hk
      by_contra hlt
      push_neg at hlt
      have h1 : k * k ≤ Nat.sqrt m * Nat.sqrt m :=
        Nat.mul_le_mul (by omega) (by omega)
      have h2 : Nat.sqrt m * Nat.sqrt m ≤ m := Nat.sqrt_le m
      omega

/-- `ceilToNat q` is exactly `(int) ceil q` for nonnegative `q`: it is at
    most `k` precisely when `q ≤ k`. -/
theorem ceilToNat_le_iff (q : ℚ) (k : ℕ) :
    ceilToNat q ≤ k ↔ q ≤ (k : ℚ) := by
  unfold ceilToNat
  rw [Int.toNat_le, Int.ceil_le]
  push_cast
  exact Iff.rfl

/-- **C8.**  With no user-supplied dimensions the grid builder's `ny` is the
    least `n` satisfying both `num_clbs ≤ n² · aspect_ratio` (that is,
    `n ≥ ceil (sqrt (num_clbs / aspect_ratio))`) and
    `pad_count ≤ n · 2·io_rat·(1+aspect_ratio)` (that is, `n ≥ io_lim =
    ceil (pad_count / (2·io_rat·(1+aspect_ratio)))` — `ny` is raised to
    `io_lim` when that is larger); `nx` is then the least integer at or above
    `ny · aspect_ratio`.  In particular `aspect_ratio = 1`,
    `num_clbs = 100`, `io_rat = 2` and zero pads give `nx = ny = 10`. -/
theorem init_arch_auto_correct :
    (∀ (num_clbs pads io_rat : ℕ) (aspect : ℚ), 0 < aspect → 0 < io_rat →
      (num_clbs : ℚ) ≤
          ((init_arch_auto num_clbs aspect pads io_rat).2 : ℚ) *
          ((init_arch_auto num_clbs aspect pads io_rat).2 : ℚ) * aspect
      ∧ (pads : ℚ) ≤ ((init_arch_auto num_clbs aspect pads io_rat).2 : ℚ) *
          (2 * (io_rat : ℚ) * (1 + aspect))
      ∧ (∀ k : ℕ, (num_clbs : ℚ) ≤ (k : ℚ) * (k : ℚ) * aspect →
          (pads : ℚ) ≤ (k : ℚ) * (2 * (io_rat : ℚ) * (1 + aspect)) →
          (init_arch_auto num_clbs aspect pads io_rat).2 ≤ k)
      ∧ ((init_arch_auto num_clbs aspect pads io_rat).2 : ℚ) * aspect ≤
          ((init_arch_auto num_clbs aspect pads io_rat).1 : ℚ)
      ∧ (∀ k : ℕ,
          ((init_arch_auto num_clbs aspect pads io_rat).2 : ℚ) * aspect ≤
            (k : ℚ) →
          (init_arch_auto num_clbs aspect pads io_rat).1 ≤ k))
    ∧ init_arch_auto 100 1 0 2 = (10, 10) := by
  constructor
  · intro c p r a ha hr
    have hrq : (0 : ℚ) < (r : ℚ) := by exact_mod_cast hr
    have h1a : (0 : ℚ) < 1 + a := by linarith
    have hd : (0 : ℚ) < 2 * (r : ℚ) * (1 + a) := by
      have h2r : (0 : ℚ) < 2 * (r : ℚ) := by linarith
      exact mul_pos h2r h1a
    have hiffsq : ∀ k : ℕ,
        ((c : ℚ) ≤ (k : ℚ) * (k : ℚ) * a ↔
          ceilToNat ((c : ℚ) / a) ≤ k * k) := by
      intro k
      rw [show ((k : ℚ) * (k : ℚ) * a) = ((k * k : ℕ) : ℚ) * a from by
        push_cast; ring]
      rw [← div_le_iff₀ ha]
      exact (ceilToNat_le_iff _ _).symm
    have hiffio : ∀ k : ℕ,
        ((p : ℚ) ≤ (k : ℚ) * (2 * (r : ℚ) * (1 + a)) ↔
          ceilToNat ((p : ℚ) / (2 * (r : ℚ) * (1 + a))) ≤ k) := by
      intro k
      rw [← div_le_iff₀ hd]
      exact (ceilToNat_le_iff _ _).symm
    set ny0 := natCeilSqrt (ceilToNat ((c : ℚ) / a)) with hny0
    set io_lim := ceilToNat ((p : ℚ) / (2 * (r : ℚ) * (1 + a))) with hiol
    have h2 : (init_arch_auto c a p r).2 = max ny0 io_lim := rfl
    have h1 : (init_arch_auto c a p r).1 =
        ceilToNat (((max ny0 io_lim : ℕ) : ℚ) * a) := rfl
    refine ⟨?_, ?_, ?_, ?_, ?_⟩
    · rw [h2, hiffsq]
      have hm : ceilToNat ((c : ℚ) / a) ≤ ny0 * ny0 :=
        (natCeilSqrt_spec _).1
      have hsq : ny0 * ny0 ≤ max ny0 io_lim * max ny0 io_lim :=
        Nat.mul_le_mul (le_max_left _ _) (le_max_left _ _)
      exact le_trans hm hsq
    · rw [h2, hiffio]
      exact le_max_right _ _
    · intro k hk1 hk2
      rw [h2]
      exact max_le ((natCeilSqrt_spec _).2 k ((hiffsq k).mp hk1))
        ((hiffio k).mp hk2)
    · rw [h1, h2]
      exact (ceilToNat_le_iff _ _).mp le_rfl
    · intro k hk
      rw [h2] at hk
      rw [h1]
      exact (ceilToNat_le_iff _ _).mpr hk
  · have hc : ceilToNat (((100 : ℕ) : ℚ) / (1 : ℚ)) = 100 := by
      have he : (((100 : ℕ) : ℚ) / (1 : ℚ)) = ((100 : ℕ) : ℚ) := by norm_num
      rw [ceilToNat, he, Int.ceil_natCast]
      rfl
    have h2 : natCeilSqrt 100 = 10 := by
      have hs := natCeilSqrt_spec 100
      have hle : natCeilSqrt 100 ≤ 10 := hs.2 10 (by norm_num)
      have hge : 10 ≤ natCeilSqrt 100 := by
        by_contra hcon
        push_neg at hcon
        have hsq : natCeilSqrt 100 * natCeilSqrt 100 ≤ 9 * 9 :=
          Nat.mul_le_mul (by omega) (by omega)
        have h100 := hs.1
        omega
      omega
    have hio : ceilToNat (((0 : ℕ) : ℚ) / (2 * ((2 : ℕ) : ℚ) * (1 + (1 : ℚ)))) = 0 := by
      simp [ceilToNat]
    have hnx : ceilToNat (((10 : ℕ) : ℚ) * (1 : ℚ)) = 10 := by
      have he : (((10 : ℕ) : ℚ) * (1 : ℚ)) = ((10 : ℕ) : ℚ) := by norm_num
      rw [ceilToNat, he, Int.ceil_natCast]
      rfl
    simp only [init_arch_auto]
    rw [hc, hio, h2, Nat.max_zero, hnx]

/-- Witness for `init_arch_auto_correct`: one logic block but 9 pads with
    `io_rat = 1` and unit aspect ratio — the pad bound dominates and the
    computed `ny` is at most 3 (since `1 ≤ 3·3·1` and `9 ≤ 3·(2·1·(1+1))`). -/
theorem init_arch_auto_correct_witness : (init_arch_auto 1 1 9 1).2 ≤ 3 :=
  (init_arch_auto_correct.1 1 9 1 1 (by norm_num) (by norm_num)).2.2.1 3
    (by norm_num) (by norm_num)

end ReadArch




